import Mathlib

/-!
Verification of the dual-stream tee mechanism in ubelt/util_cmd.py.

A child-process text stream is modelled as the list of lines that successive
calls to readline will return; once the list is exhausted, readline returns
the empty string forever (the end-of-stream marker of Python TextIO).
-/

/-- Model of stream.readline on a stream state: return the next buffered line,
or the empty string at end of stream, together with the new stream state. -/
def readline : List String → String × List String
  | [] => ("", [])
  | x :: rest => (x, rest)

/-- Embeds textio_iterlines: repeatedly readline, yielding each line, until
the read returns the end-of-stream marker (the empty string). -/
def textioIterlines : List String → List String
  | [] => []
  | line :: rest => if line = "" then [] else line :: textioIterlines rest

/-- Iterated readline: the t results of t successive readline calls, together
with the remaining stream state. -/
def readlineN : Nat → List String → List String × List String
  | 0, s => ([], s)
  | n + 1, s =>
    ((readline s).1 :: (readlineN n (readline s).2).1, (readlineN n (readline s).2).2)

/-- Strings pushed by the enqueue_output worker before its sentinel: in the
live phase it performs t blocking readline calls (each pushed, the ones past
end of stream being the empty string), where t is the number of loop
iterations before proc.poll() is observed non-None; after that it drains the
stream via textio_iterlines. -/
def enqueueColl (t : Nat) (lines : List String) : List String :=
  (readlineN t lines).1 ++ textioIterlines (readlineN t lines).2

/-- Embeds enqueue_output of proc_async_iter_stream: the full sequence of
values pushed to the stream queue, some line for each pushed line and none
for the final sentinel. -/
def enqueueOutput (t : Nat) (lines : List String) : List (Option String) :=
  (enqueueColl t lines).map some ++ [none]

/-- State of the foreground merge loop of proc_iteroutput_thread: the values
not yet popped from each stream queue (none being the sentinel) and the two
liveness flags. -/
structure MergeState where
  oRem : List (Option String)
  eRem : List (Option String)
  oLive : Bool
  eLive : Bool
  deriving DecidableEq

/-- One try/except get_nowait on one side of the merge loop: if the side is
live and the schedule says a value is available, pop it and update the
liveness flag (live iff the popped value is not the sentinel); on
queue.Empty, or when the side is no longer live, the local line variable
holds none and the flag is unchanged. -/
def popSide (avail live : Bool) (rem : List (Option String)) :
    Option String × List (Option String) × Bool :=
  if live then
    if avail then
      match rem with
      | x :: rest => (x, rest, x.isSome)
      | [] => (none, [], live)
    else (none, rem, live)
  else (none, rem, live)

/-- One iteration of the merge loop body, on both sides. -/
def mergeStep (b : Bool × Bool) (st : MergeState) :
    (Option String × Option String) × MergeState :=
  (((popSide b.1 st.oLive st.oRem).1, (popSide b.2 st.eLive st.eRem).1),
   ⟨(popSide b.1 st.oLive st.oRem).2.1, (popSide b.2 st.eLive st.eRem).2.1,
    (popSide b.1 st.oLive st.oRem).2.2, (popSide b.2 st.eLive st.eRem).2.2⟩)

/-- Embeds the while loop of proc_iteroutput_thread, driven by a schedule of
availability bits for the two queues: while either stream is live, run one
iteration and yield the pair when at least one side holds a value. Returns
the yielded merge records and the final loop state. -/
def mergeRun : List (Bool × Bool) → MergeState →
    List (Option String × Option String) × MergeState
  | [], st => ([], st)
  | b :: rest, st =>
    if st.oLive || st.eLive then
      ((if (mergeStep b st).1.1.isSome || (mergeStep b st).1.2.isSome
          then [(mergeStep b st).1] else []) ++ (mergeRun rest (mergeStep b st).2).1,
       (mergeRun rest (mergeStep b st).2).2)
    else ([], st)

/-- The per-iteration (oline, eline) pairs computed by the merge loop,
whether or not they are yielded. -/
def mergeTrace : List (Bool × Bool) → MergeState →
    List (Option String × Option String)
  | [], _ => []
  | b :: rest, st =>
    if st.oLive || st.eLive then
      (mergeStep b st).1 :: mergeTrace rest (mergeStep b st).2
    else []

/-- True when the merge loop has observed both sentinels by the end of the
schedule, that is when the while condition has become false. -/
def mergeDone (sched : List (Bool × Bool)) (st : MergeState) : Bool :=
  !(mergeRun sched st).2.oLive && !(mergeRun sched st).2.eLive

/-- Swapping the two sides of the merge state. -/
def MergeState.swap (st : MergeState) : MergeState :=
  ⟨st.eRem, st.oRem, st.eLive, st.oLive⟩

/-- Embeds six.moves.zip_longest with the default fill value of None, as used
by the drain phase of proc_iteroutput_select. -/
def zipLongestOpt : List String → List String → List (Option String × Option String)
  | [], [] => []
  | [], y :: ys => (none, some y) :: zipLongestOpt [] ys
  | x :: xs, [] => (some x, none) :: zipLongestOpt xs []
  | x :: xs, y :: ys => (some x, some y) :: zipLongestOpt xs ys

/-- Embeds the first while loop of proc_iteroutput_select: one iteration per
select wakeup, the schedule entry telling which of the two descriptors the
select call reported ready; a ready descriptor gets exactly one readline,
the other slot stays none. Runs until proc.poll() is observed non-None,
that is for the length of the schedule; returns the yielded records and the
remaining states of both streams. -/
def selectWhile : List (Bool × Bool) → List String → List String →
    List (Option String × Option String) × List String × List String
  | [], o, e => ([], o, e)
  | r :: rest, o, e =>
    ((if r.1 then some (readline o).1 else none,
      if r.2 then some (readline e).1 else none) ::
       (selectWhile rest (if r.1 then (readline o).2 else o)
         (if r.2 then (readline e).2 else e)).1,
     (selectWhile rest (if r.1 then (readline o).2 else o)
       (if r.2 then (readline e).2 else e)).2)

/-- Embeds proc_iteroutput_select: the select-driven while loop followed by
the pairwise zip_longest drain of whatever remains on the two streams. -/
def procIteroutputSelect (sched : List (Bool × Bool)) (o e : List String) :
    List (Option String × Option String) :=
  (selectWhile sched o e).1 ++
    zipLongestOpt (textioIterlines (selectWhile sched o e).2.1)
      (textioIterlines (selectWhile sched o e).2.2)

/-- Python truthiness of an optional line, as tested by the statements
if oline: and if eline: in tee_output: some s is truthy exactly when s is
not the empty string. -/
def truthyStr : Option String → Option String
  | some s => if s = "" then none else some s
  | none => none

/-- Accumulated effects of the tee loop: the two capture buffers logged_out
and logged_err, and the sequences of lines written to the two forward
sinks. -/
structure TeeAcc where
  loggedOut : List String
  loggedErr : List String
  sinkOut : List String
  sinkErr : List String
  deriving DecidableEq

/-- Embeds the for loop of tee_output over the merge records yielded by the
multiplexer: for each side, when the line is truthy it is written and
flushed to that side's sink if one was supplied, and appended to that
side's capture buffer. -/
def teeRun : List (Option String × Option String) → Bool → Bool → TeeAcc
  | [], _, _ => ⟨[], [], [], []⟩
  | r :: rest, hasOut, hasErr =>
    match truthyStr r.1, truthyStr r.2 with
    | some s, some t =>
      ⟨s :: (teeRun rest hasOut hasErr).loggedOut,
       t :: (teeRun rest hasOut hasErr).loggedErr,
       if hasOut then s :: (teeRun rest hasOut hasErr).sinkOut
         else (teeRun rest hasOut hasErr).sinkOut,
       if hasErr then t :: (teeRun rest hasOut hasErr).sinkErr
         else (teeRun rest hasOut hasErr).sinkErr⟩
    | some s, none =>
      ⟨s :: (teeRun rest hasOut hasErr).loggedOut,
       (teeRun rest hasOut hasErr).loggedErr,
       if hasOut then s :: (teeRun rest hasOut hasErr).sinkOut
         else (teeRun rest hasOut hasErr).sinkOut,
       (teeRun rest hasOut hasErr).sinkErr⟩
    | none, some t =>
      ⟨(teeRun rest hasOut hasErr).loggedOut,
       t :: (teeRun rest hasOut hasErr).loggedErr,
       (teeRun rest hasOut hasErr).sinkOut,
       if hasErr then t :: (teeRun rest hasOut hasErr).sinkErr
         else (teeRun rest hasOut hasErr).sinkErr⟩
    | none, none => teeRun rest hasOut hasErr

/-- The truthy stdout components of a record list, in order: what the tee
loop appends to logged_out. -/
def oCaptured (recs : List (Option String × Option String)) : List String :=
  recs.filterMap fun r => truthyStr r.1

/-- The truthy stderr components of a record list, in order. -/
def eCaptured (recs : List (Option String × Option String)) : List String :=
  recs.filterMap fun r => truthyStr r.2

/-- The non-empty strings of a list, in order. -/
def truthy (l : List String) : List String :=
  l.filterMap fun s => if s = "" then none else some s

/-- Errors raised by the validation part of tee_output: the
NotImplementedError for select off POSIX, and the ValueError for an
unrecognized backend name. -/
inductive TeeErr where
  | selectUnavailable
  | badBackend
  deriving DecidableEq

/-- The two multiplexer implementations tee_output can select. -/
inductive TeeBackend where
  | select
  | thread
  deriving DecidableEq

/-- Embeds the backend validation of tee_output: auto resolves to thread;
select demands POSIX; anything other than select or thread is rejected. -/
def resolveBackend (backend : String) (posix : Bool) : Except TeeErr TeeBackend :=
  let backend := if backend = "auto" then "thread" else backend
  if backend = "select" then
    if !posix then .error .selectUnavailable else .ok .select
  else if backend = "thread" then .ok .thread
  else .error .badBackend

/-- Specification of a child process: the lines it writes to stdout, the
lines it writes to stderr, and its exit code. -/
structure ProcSpec where
  outLines : List String
  errLines : List String
  exitCode : Int
  deriving DecidableEq

/-- Embeds tee_output: validate the backend, then (and only then) call the
process factory once and drive the chosen multiplexer through the tee loop.
The second component counts how many times the factory was invoked.
tO and tE are the live-phase iteration counts of the two worker threads,
thrSched the availability schedule of the merge loop, selSched the
readiness schedule of the select loop. -/
def teeOutputRun (backend : String) (posix : Bool) (hasOut hasErr : Bool)
    (p : ProcSpec) (tO tE : Nat) (thrSched selSched : List (Bool × Bool)) :
    Except TeeErr TeeAcc × Nat :=
  match resolveBackend backend posix with
  | .error e => (.error e, 0)
  | .ok bk =>
    (.ok (teeRun
      (match bk with
       | .thread => (mergeRun thrSched
           ⟨enqueueOutput tO p.outLines, enqueueOutput tE p.errLines, true, true⟩).1
       | .select => procIteroutputSelect selSched p.outLines p.errLines)
      hasOut hasErr), 1)

/-- Characters pipes.quote leaves unquoted: ASCII letters, digits, and the
punctuation of its safe set. -/
def safeChar (c : Char) : Bool :=
  c.isAlphanum || ['@', '%', '_', '-', '+', '=', ':', ',', '.', '/'].contains c

/-- Embeds pipes.quote: the empty string becomes two single quotes, a string
of safe characters is returned unchanged, anything else is wrapped in
single quotes with each inner single quote escaped. -/
def pipesQuote (s : String) : String :=
  if s = "" then "''"
  else if s.toList.all safeChar then s
  else "'" ++ s.replace "'" "'\"'\"'" ++ "'"

/-- The command argument of cmd: either a bash-like command string or a
tuple of executable and arguments. -/
inductive CmdInput where
  | str (s : String)
  | tup (l : List String)
  deriving DecidableEq

/-- Embeds the command normalization of cmd: a string is kept unchanged, a
tuple is joined with spaces after quoting each element with pipes.quote. -/
def commandText : CmdInput → String
  | .str s => s
  | .tup l => String.intercalate " " (l.map pipesQuote)

/-- The record cmd returns: either the detached form holding only the
process and the command text, or the completed form with captured stdout,
captured stderr, return code and command text. -/
inductive CmdResult where
  | detached (command : String)
  | completed (out err : String) (ret : Int) (command : String)
  deriving DecidableEq

/-- The command field present on both forms of the result record. -/
def CmdResult.command : CmdResult → String
  | .detached c => c
  | .completed _ _ _ c => c

/-- Embeds cmd: detach returns the process and command text immediately;
otherwise with tee the output is gathered through tee_output (the forward
sinks being sys.stdout and sys.stderr) and joined, and without tee
communicate returns the whole contents of both streams; the return code is
proc.wait(). A backend validation error propagates as an exception,
modelled as none. -/
def cmdModel (c : CmdInput) (p : ProcSpec) (detach tee : Bool)
    (teeBackend : String) (posix : Bool) (tO tE : Nat)
    (thrSched selSched : List (Bool × Bool)) : Option CmdResult :=
  if detach then some (.detached (commandText c))
  else if tee then
    match teeOutputRun teeBackend posix true true p tO tE thrSched selSched with
    | (.error _, _) => none
    | (.ok acc, _) =>
      some (.completed (String.join acc.loggedOut) (String.join acc.loggedErr)
        p.exitCode (commandText c))
  else
    some (.completed (String.join p.outLines) (String.join p.errLines)
      p.exitCode (commandText c))

/-- The child process of the first scenario of the spec: it writes exactly
one line hello to stdout, nothing to stderr, and exits with code 0. -/
def helloProc : ProcSpec := ⟨["hello\n"], [], 0⟩

/-! Helper lemmas about the merge loop. -/

theorem popSide_dead (avail : Bool) (rem : List (Option String)) :
    popSide avail false rem = (none, rem, false) := by
  cases avail <;> simp [popSide]

theorem popSide_noavail (live : Bool) (rem : List (Option String)) :
    popSide false live rem = (none, rem, live) := by
  cases live <;> simp [popSide]

theorem popSide_pop (x : Option String) (rest : List (Option String)) :
    popSide true true (x :: rest) = (x, rest, x.isSome) := by
  simp [popSide]

theorem oCaptured_append (a b : List (Option String × Option String)) :
    oCaptured (a ++ b) = oCaptured a ++ oCaptured b := by
  simp [oCaptured, List.filterMap_append]

/-- Once the stdout side has observed its sentinel, the rest of the merge
loop neither captures another stdout line nor revives the side. -/
theorem mergeRun_oDead (sched : List (Bool × Bool)) (st : MergeState)
    (h : st.oLive = false) :
    oCaptured (mergeRun sched st).1 = [] ∧ (mergeRun sched st).2.oLive = false := by
  induction sched generalizing st with
  | nil => simp [mergeRun, oCaptured, h]
  | cons b rest ih =>
    by_cases hg : (st.oLive || st.eLive) = true
    · have hstep1 : (mergeStep b st).1.1 = none := by
        simp [mergeStep, h, popSide_dead]
      have hstep2 : (mergeStep b st).2.oLive = false := by
        simp [mergeStep, h, popSide_dead]
      have := ih (mergeStep b st).2 hstep2
      constructor
      · simp only [mergeRun, hg, if_true, oCaptured_append]
        rw [this.1]
        cases hc : ((mergeStep b st).1.1.isSome || (mergeStep b st).1.2.isSome) <;>
          simp [oCaptured, hstep1, truthyStr]
      · simp only [mergeRun, hg, if_true]
        exact this.2
    · simp only [mergeRun, if_neg hg]
      simp [oCaptured, h]

/-- Main invariant of the merge loop on the stdout side: starting from a
live side whose queue holds the lines l followed by the sentinel, the loop
captures the non-empty strings of some initial part of l, in order, and
the side goes dead only when the whole of l has been consumed. -/
theorem mergeRun_oSpec (sched : List (Bool × Bool)) (st : MergeState) (l : List String)
    (hl : st.oLive = true) (hr : st.oRem = l.map some ++ [none]) :
    ∃ l₁ l₂, l = l₁ ++ l₂ ∧ oCaptured (mergeRun sched st).1 = truthy l₁ ∧
      ((mergeRun sched st).2.oLive = false → l₂ = []) := by
  induction sched generalizing st l with
  | nil =>
    refine ⟨[], l, rfl, by simp [mergeRun, oCaptured, truthy], ?_⟩
    intro hdead
    rw [show (mergeRun [] st).2 = st from rfl, hl] at hdead
    exact absurd hdead (by simp)
  | cons b rest ih =>
    have hg : (st.oLive || st.eLive) = true := by simp [hl]
    by_cases hb : b.1 = true
    · cases l with
      | nil =>
        -- the queue holds only the sentinel: pop it, the side goes dead
        have hpop : popSide b.1 st.oLive st.oRem = (none, [], false) := by
          rw [hb, hl, hr]; simp [popSide_pop]
        have hstep1 : (mergeStep b st).1.1 = none := by simp [mergeStep, hpop]
        have hstep2 : (mergeStep b st).2.oLive = false := by simp [mergeStep, hpop]
        have hdead := mergeRun_oDead rest (mergeStep b st).2 hstep2
        refine ⟨[], [], by simp, ?_, fun _ => rfl⟩
        simp only [mergeRun, hg, if_true, oCaptured_append]
        rw [hdead.1]
        cases hc : ((mergeStep b st).1.1.isSome || (mergeStep b st).1.2.isSome) <;>
          simp [oCaptured, hstep1, truthyStr, truthy]
      | cons x l' =>
        have hpop : popSide b.1 st.oLive st.oRem =
            (some x, l'.map some ++ [none], true) := by
          rw [hb, hl, hr]; simp [popSide_pop]
        have hstep1 : (mergeStep b st).1.1 = some x := by simp [mergeStep, hpop]
        have hstep2 : (mergeStep b st).2.oLive = true := by simp [mergeStep, hpop]
        have hstep3 : (mergeStep b st).2.oRem = l'.map some ++ [none] := by
          simp [mergeStep, hpop]
        obtain ⟨l₁, l₂, heq, hcap, hend⟩ := ih (mergeStep b st).2 l' hstep2 hstep3
        refine ⟨x :: l₁, l₂, by simp [heq], ?_, ?_⟩
        · have hc : ((mergeStep b st).1.1.isSome || (mergeStep b st).1.2.isSome) = true := by
            simp [hstep1]
          simp only [mergeRun, hg, if_true, hc, oCaptured_append]
          by_cases hx : x = "" <;>
            simp [oCaptured, truthyStr, hstep1, hx, truthy, hcap.symm, oCaptured]
          · exact hcap
          · exact hcap
        · intro hdead
          simp only [mergeRun, hg, if_true] at hdead
          exact hend hdead
    · -- queue.Empty on the stdout side: state unchanged there
      have hb' : b.1 = false := by simpa using hb
      have hpop : popSide b.1 st.oLive st.oRem = (none, st.oRem, st.oLive) := by
        rw [hb']; exact popSide_noavail _ _
      have hstep1 : (mergeStep b st).1.1 = none := by simp [mergeStep, hpop]
      have hstep2 : (mergeStep b st).2.oLive = true := by
        simp only [mergeStep]; rw [hpop]; exact hl
      have hstep3 : (mergeStep b st).2.oRem = l.map some ++ [none] := by
        simp only [mergeStep]; rw [hpop]; exact hr
      obtain ⟨l₁, l₂, heq, hcap, hend⟩ := ih (mergeStep b st).2 l hstep2 hstep3
      refine ⟨l₁, l₂, heq, ?_, ?_⟩
      · simp only [mergeRun, hg, if_true, oCaptured_append]
        rw [hcap]
        cases hc : ((mergeStep b st).1.1.isSome || (mergeStep b st).1.2.isSome) <;>
          simp [oCaptured, hstep1, truthyStr]
      · intro hdead
        simp only [mergeRun, hg, if_true] at hdead
        exact hend hdead

theorem mergeStep_swap (b : Bool × Bool) (st : MergeState) :
    mergeStep b.swap st.swap =
      ((mergeStep b st).1.swap, (mergeStep b st).2.swap) := rfl

/-- The merge loop treats the two sides symmetrically. -/
theorem mergeRun_swap (sched : List (Bool × Bool)) (st : MergeState) :
    mergeRun (sched.map Prod.swap) st.swap =
      ((mergeRun sched st).1.map Prod.swap, (mergeRun sched st).2.swap) := by
  induction sched generalizing st with
  | nil => rfl
  | cons b rest ih =>
    by_cases hg : (st.oLive || st.eLive) = true
    · have hg' : (st.swap.oLive || st.swap.eLive) = true := by
        simpa [MergeState.swap, Bool.or_comm] using hg
      simp only [List.map_cons, mergeRun, hg, hg', if_true, mergeStep_swap]
      rw [ih (mergeStep b st).2]
      cases hc : ((mergeStep b st).1.1.isSome || (mergeStep b st).1.2.isSome) <;>
        simp [Prod.swap, Bool.or_comm] at hc ⊢ <;> simp [hc, Bool.or_comm]
    · have hg' : ¬(st.swap.oLive || st.swap.eLive) = true := by
        simp only [MergeState.swap, Bool.or_comm] at *; exact hg
      simp only [List.map_cons, mergeRun, if_neg hg, if_neg hg']
      rfl

theorem eCaptured_eq_oCaptured_swap (recs : List (Option String × Option String)) :
    eCaptured recs = oCaptured (recs.map Prod.swap) := by
  simp [eCaptured, oCaptured, List.filterMap_map]
  rfl

theorem mergeRun_eDead (sched : List (Bool × Bool)) (st : MergeState)
    (h : st.eLive = false) :
    eCaptured (mergeRun sched st).1 = [] ∧ (mergeRun sched st).2.eLive = false := by
  have := mergeRun_oDead (sched.map Prod.swap) st.swap (by simpa [MergeState.swap] using h)
  rw [mergeRun_swap] at this
  constructor
  · rw [eCaptured_eq_oCaptured_swap]; exact this.1
  · simpa [MergeState.swap] using this.2

/-- Mirror of the main merge loop invariant, on the stderr side. -/
theorem mergeRun_eSpec (sched : List (Bool × Bool)) (st : MergeState) (l : List String)
    (hl : st.eLive = true) (hr : st.eRem = l.map some ++ [none]) :
    ∃ l₁ l₂, l = l₁ ++ l₂ ∧ eCaptured (mergeRun sched st).1 = truthy l₁ ∧
      ((mergeRun sched st).2.eLive = false → l₂ = []) := by
  obtain ⟨l₁, l₂, h1, h2, h3⟩ := mergeRun_oSpec (sched.map Prod.swap) st.swap l
    (by simpa [MergeState.swap] using hl) (by simpa [MergeState.swap] using hr)
  rw [mergeRun_swap] at h2 h3
  refine ⟨l₁, l₂, h1, ?_, ?_⟩
  · rw [eCaptured_eq_oCaptured_swap]; exact h2
  · intro hdead; exact h3 (by simpa [MergeState.swap] using hdead)

/-! Helper lemmas about the tee loop and the line sources. -/

/-- The tee loop in one equation per field: each capture buffer collects the
truthy lines of its side in order, each sink receives exactly those lines
when supplied and nothing otherwise. -/
theorem teeRun_spec (recs : List (Option String × Option String)) (hasOut hasErr : Bool) :
    (teeRun recs hasOut hasErr).loggedOut = oCaptured recs ∧
    (teeRun recs hasOut hasErr).loggedErr = eCaptured recs ∧
    (teeRun recs hasOut hasErr).sinkOut = (if hasOut then oCaptured recs else []) ∧
    (teeRun recs hasOut hasErr).sinkErr = (if hasErr then eCaptured recs else []) := by
  induction recs with
  | nil => simp [teeRun, oCaptured, eCaptured]
  | cons r rest ih =>
    obtain ⟨h1, h2, h3, h4⟩ := ih
    cases ho : truthyStr r.1 <;> cases he : truthyStr r.2 <;>
      simp only [teeRun, ho, he] <;>
      cases hasOut <;> cases hasErr <;>
      simp_all [oCaptured, eCaptured, List.filterMap_cons, ho, he]

theorem textioIterlines_no_empty (lines : List String) (h : "" ∉ lines) :
    textioIterlines lines = lines := by
  induction lines with
  | nil => rfl
  | cons x rest ih =>
    have hx : ¬x = "" := fun hc => h (hc ▸ List.mem_cons_self x rest)
    simp only [textioIterlines, if_neg hx]
    rw [ih (fun hm => h (List.mem_cons_of_mem x hm))]

theorem truthy_textioIterlines (lines : List String) (h : "" ∉ lines) :
    truthy (textioIterlines lines) = lines := by
  rw [textioIterlines_no_empty lines h]
  induction lines with
  | nil => rfl
  | cons x rest ih =>
    have hx : ¬x = "" := fun hc => h (hc ▸ List.mem_cons_self x rest)
    simp only [truthy, List.filterMap_cons, if_neg hx]
    exact congrArg (List.cons x) (ih (fun hm => h (List.mem_cons_of_mem x hm)))

/-- Whatever the race between the worker loop and process exit, the non-empty
strings pushed by the worker are exactly the lines of the stream, in
order. -/
theorem truthy_enqueueColl (t : Nat) (lines : List String) (h : "" ∉ lines) :
    truthy (enqueueColl t lines) = lines := by
  induction t generalizing lines with
  | zero =>
    simp only [enqueueColl, readlineN, List.nil_append]
    exact truthy_textioIterlines lines h
  | succ n ih =>
    cases lines with
    | nil =>
      have hstep : enqueueColl (n + 1) [] = "" :: enqueueColl n [] := by
        simp [enqueueColl, readlineN, readline]
      rw [hstep]
      simp only [truthy, List.filterMap_cons, if_pos rfl]
      exact ih [] (by simp)
    | cons x rest =>
      have hx : ¬x = "" := fun hc => h (hc ▸ List.mem_cons_self x rest)
      have hstep : enqueueColl (n + 1) (x :: rest) = x :: enqueueColl n rest := by
        simp [enqueueColl, readlineN, readline]
      rw [hstep]
      simp only [truthy, List.filterMap_cons, if_neg hx]
      exact congrArg (List.cons x) (ih rest (fun hm => h (List.mem_cons_of_mem x hm)))

theorem zipLongestOpt_length (a b : List String) :
    (zipLongestOpt a b).length = max a.length b.length := by
  induction a generalizing b with
  | nil =>
    induction b with
    | nil => simp [zipLongestOpt]
    | cons y ys ihb => simp [zipLongestOpt, ihb]
  | cons x xs ih =>
    cases b with
    | nil =>
      simp [zipLongestOpt, ih []]
    | cons y ys =>
      simp [zipLongestOpt, ih ys, Nat.succ_max_succ]

theorem zipLongestOpt_get (a b : List String) (i : Nat) :
    (zipLongestOpt a b)[i]? =
      if i < max a.length b.length then some (a[i]?, b[i]?) else none := by
  induction a generalizing b i with
  | nil =>
    induction b generalizing i with
    | nil => simp [zipLongestOpt]
    | cons y ys ihb =>
      cases i with
      | zero => simp [zipLongestOpt]
      | succ j => simp [zipLongestOpt, ihb j, Nat.succ_lt_succ_iff]
  | cons x xs ih =>
    cases b with
    | nil =>
      cases i with
      | zero => simp [zipLongestOpt]
      | succ j => simp [zipLongestOpt, ih [] j, Nat.succ_lt_succ_iff]
    | cons y ys =>
      cases i with
      | zero => simp [zipLongestOpt, Nat.succ_max_succ]
      | succ j => simp [zipLongestOpt, ih ys j, Nat.succ_max_succ, Nat.succ_lt_succ_iff]

theorem count_none_map_some (l : List String) :
    (l.map some).count (none : Option String) = 0 := by
  induction l with
  | nil => rfl
  | cons x rest ih => simp [List.count_cons, ih]

theorem truthyStr_ne_empty (o : Option String) (s : String)
    (hr : truthyStr o = some s) : ¬s = "" := by
  cases h1 : o with
  | none => simp [truthyStr, h1] at hr
  | some u =>
    by_cases hu : u = ""
    · simp [truthyStr, h1, hu] at hr
    · simp [truthyStr, h1, hu] at hr
      exact hr ▸ hu

theorem oCaptured_not_mem_empty (recs : List (Option String × Option String)) :
    "" ∉ oCaptured recs := by
  induction recs with
  | nil => simp [oCaptured]
  | cons r rest ih =>
    cases hr : truthyStr r.1 with
    | none => simpa [oCaptured, List.filterMap_cons, hr] using ih
    | some s =>
      have hs := truthyStr_ne_empty r.1 s hr
      simp only [oCaptured, List.filterMap_cons, hr, List.mem_cons]
      rintro (hc | hc)
      · exact hs hc.symm
      · exact ih hc

theorem eCaptured_not_mem_empty (recs : List (Option String × Option String)) :
    "" ∉ eCaptured recs := by
  rw [eCaptured_eq_oCaptured_swap]
  exact oCaptured_not_mem_empty _

/-! Claim theorems. -/

/-- C4: for every readable text stream whose lines are all distinct from the
end-of-stream marker (the empty string, as opposed to an empty line made of
a lone newline), textio_iterlines yields exactly the lines returned by
repeated blocking line reads, in order, until the read returns the marker;
in particular a final line lacking a trailing newline is yielded exactly
once, neither duplicated nor dropped. -/
theorem textioIterlines_complete (lines : List String) (h : "" ∉ lines) :
    textioIterlines lines = lines :=
  textioIterlines_no_empty lines h

/-- Witness for C4, on a stream whose final line has no trailing newline. -/
theorem textioIterlines_complete_witness :
    textioIterlines ["a\n", "b"] = ["a\n", "b"] :=
  textioIterlines_complete ["a\n", "b"] (by decide)

/-- C5: whatever the number t of live-phase iterations the worker performs
before observing process exit, the sequence of values it pushes onto its
stream queue contains the completion sentinel exactly once, and that
sentinel is the last value ever pushed. -/
theorem enqueueOutput_sentinel_once_last (t : Nat) (lines : List String) :
    (enqueueOutput t lines).count none = 1 ∧
    (enqueueOutput t lines).getLast? = some none := by
  constructor
  · simp [enqueueOutput, List.count_append, count_none_map_some]
  · simp [enqueueOutput]

/-- C6: the records yielded by the thread-based merge loop are exactly the
per-iteration (oline, eline) pairs in which at least one side holds a
value, and once both liveness flags are down (both sentinels observed) the
loop yields nothing at all. -/
theorem mergeRun_records_iff (sched : List (Bool × Bool)) (st : MergeState) :
    ((mergeRun sched st).1 = (mergeTrace sched st).filter
        (fun r => r.1.isSome || r.2.isSome)) ∧
    (st.oLive = false → st.eLive = false → (mergeRun sched st).1 = []) := by
  constructor
  · induction sched generalizing st with
    | nil => rfl
    | cons b rest ih =>
      by_cases hg : (st.oLive || st.eLive) = true
      · simp only [mergeRun, mergeTrace, hg, if_true, List.filter_cons]
        cases hc : ((mergeStep b st).1.1.isSome || (mergeStep b st).1.2.isSome) <;>
          simp [hc, ih]
      · simp only [mergeRun, mergeTrace, if_neg hg]
        rfl
  · intro h1 h2
    cases sched with
    | nil => rfl
    | cons b rest => simp [mergeRun, h1, h2]

/-- Witness for C6: with both sides already completed, nothing is yielded
even though values sit unpopped in the queues. -/
theorem mergeRun_records_iff_witness :
    (mergeRun [(true, true)] ⟨[some "x\n"], [some "y\n"], false, false⟩).1 = [] :=
  (mergeRun_records_iff [(true, true)] ⟨[some "x\n"], [some "y\n"], false, false⟩).2 rfl rfl

/-- C7: after the select-driven while loop ends (the process has exited),
the remaining output of proc_iteroutput_select is exactly the pairwise zip
of the residual line sequences of the two streams, which runs for as many
records as the longer residue and fills the slot of the exhausted shorter
stream with none. -/
theorem selectDrain_zip (sched : List (Bool × Bool)) (o e : List String) :
    ((procIteroutputSelect sched o e).drop (selectWhile sched o e).1.length =
      zipLongestOpt (textioIterlines (selectWhile sched o e).2.1)
        (textioIterlines (selectWhile sched o e).2.2)) ∧
    (∀ a b : List String, (zipLongestOpt a b).length = max a.length b.length ∧
      ∀ i : Nat, (zipLongestOpt a b)[i]? =
        if i < max a.length b.length then some (a[i]?, b[i]?) else none) :=
  ⟨by simp [procIteroutputSelect, List.drop_left],
   fun a b => ⟨zipLongestOpt_length a b, fun i => zipLongestOpt_get a b i⟩⟩

/-- C3: tee_output validates the backend choice before calling the process
factory: an unrecognized backend name raises the configuration error with
the factory never invoked, and requesting select on a non-POSIX platform
raises the unsupported-platform error with the factory never invoked (the
second component of teeOutputRun counts factory invocations). -/
theorem teeOutput_validates_before_spawn (backend : String) (posix : Bool)
    (hasOut hasErr : Bool) (p : ProcSpec) (tO tE : Nat)
    (thr sel : List (Bool × Bool)) :
    (backend ≠ "auto" → backend ≠ "select" → backend ≠ "thread" →
      teeOutputRun backend posix hasOut hasErr p tO tE thr sel =
        (.error .badBackend, 0)) ∧
    (backend = "select" → posix = false →
      teeOutputRun backend posix hasOut hasErr p tO tE thr sel =
        (.error .selectUnavailable, 0)) := by
  constructor
  · intro h1 h2 h3
    simp [teeOutputRun, resolveBackend, h1, h2, h3]
  · rintro rfl rfl
    simp [teeOutputRun, resolveBackend]

/-- Witness for C3: a bogus backend name, and select off POSIX, both error
with zero spawns. -/
theorem teeOutput_validates_before_spawn_witness :
    teeOutputRun "bogus" true true true ⟨[], [], 0⟩ 0 0 [] [] =
      (.error .badBackend, 0) ∧
    teeOutputRun "select" false true true ⟨[], [], 0⟩ 0 0 [] [] =
      (.error .selectUnavailable, 0) :=
  ⟨(teeOutput_validates_before_spawn "bogus" true true true ⟨[], [], 0⟩ 0 0 [] []).1
      (by decide) (by decide) (by decide),
   (teeOutput_validates_before_spawn "select" false true true ⟨[], [], 0⟩ 0 0 [] []).2
      rfl rfl⟩

/-- C8: when a forward sink is supplied for a stream, the sequence of lines
written to that sink equals exactly the sequence of lines appended to that
stream's capture buffer, in the same order. -/
theorem tee_forward_parity (recs : List (Option String × Option String))
    (hasOut hasErr : Bool) :
    ((teeRun recs true hasErr).sinkOut = (teeRun recs true hasErr).loggedOut) ∧
    ((teeRun recs hasOut true).sinkErr = (teeRun recs hasOut true).loggedErr) := by
  have h1 := teeRun_spec recs true hasErr
  have h2 := teeRun_spec recs hasOut true
  constructor
  · rw [h1.1, h1.2.2.1]
    simp
  · rw [h2.2.1, h2.2.2.2]
    simp

/-- C9: tee_output neither forwards nor captures an empty-string component
of a merge record (which the thread-based worker can produce when a stream
reaches end of file while the process still runs): all four output lists of
the tee loop contain only non-empty lines. -/
theorem tee_captures_only_nonempty (recs : List (Option String × Option String))
    (hasOut hasErr : Bool) :
    ((teeRun recs hasOut hasErr).loggedOut.contains "" = false) ∧
    ((teeRun recs hasOut hasErr).loggedErr.contains "" = false) ∧
    ((teeRun recs hasOut hasErr).sinkOut.contains "" = false) ∧
    ((teeRun recs hasOut hasErr).sinkErr.contains "" = false) := by
  obtain ⟨h1, h2, h3, h4⟩ := teeRun_spec recs hasOut hasErr
  refine ⟨?_, ?_, ?_, ?_⟩
  · rw [h1]; simpa using oCaptured_not_mem_empty recs
  · rw [h2]; simpa using eCaptured_not_mem_empty recs
  · rw [h3]
    cases hasOut
    · simp
    · simpa using oCaptured_not_mem_empty recs
  · rw [h4]
    cases hasErr
    · simp
    · simpa using eCaptured_not_mem_empty recs

/-- C2 counterexample: the thread-based multiplexer can yield a record whose
stdout component is the produced line given by the empty string (worker
past end of stream while the process still runs), and the tee loop does not
append that produced line to the capture buffer even though a sink was
supplied, refuting the claim that every produced line is captured. -/
theorem tee_drops_produced_empty_line :
    ((mergeRun [(true, true)]
        ⟨enqueueOutput 1 [], enqueueOutput 0 [], true, true⟩).1 =
      [(some "", none)]) ∧
    ((teeRun [(some "", none)] true true).loggedOut = []) := by
  constructor
  · rfl
  · rfl

/-- C2 amended: every non-empty line produced by the multiplexer is appended
to that side's capture buffer (the buffer is exactly the ordered sequence
of non-empty components of that side), and supplying or omitting a sink
never changes what is captured. -/
theorem tee_capture_nonempty_sink_independent
    (recs : List (Option String × Option String))
    (hasOut hasErr hasOut' hasErr' : Bool) :
    ((teeRun recs hasOut hasErr).loggedOut = oCaptured recs) ∧
    ((teeRun recs hasOut hasErr).loggedErr = eCaptured recs) ∧
    ((teeRun recs hasOut hasErr).loggedOut = (teeRun recs hasOut' hasErr').loggedOut) ∧
    ((teeRun recs hasOut hasErr).loggedErr = (teeRun recs hasOut' hasErr').loggedErr) := by
  obtain ⟨h1, h2, _, _⟩ := teeRun_spec recs hasOut hasErr
  obtain ⟨h1', h2', _, _⟩ := teeRun_spec recs hasOut' hasErr'
  exact ⟨h1, h2, h1.trans h1'.symm, h2.trans h2'.symm⟩

/-- C1: for a child process that writes exactly the line hello to stdout,
nothing to stderr, and exits with code 0, cmd without detach (with or
without tee, under every worker race and every merge schedule on which the
tee loop runs to completion) returns the record with out the hello line,
err empty, and ret 0. -/
theorem cmd_hello_result (c : CmdInput) (tee posix : Bool) (tO tE : Nat)
    (thr sel : List (Bool × Bool))
    (hdone : tee = true → mergeDone thr
      ⟨enqueueOutput tO ["hello\n"], enqueueOutput tE [], true, true⟩ = true) :
    cmdModel c helloProc false tee "auto" posix tO tE thr sel =
      some (.completed "hello\n" "" 0 (commandText c)) := by
  cases tee with
  | false =>
    simp [cmdModel, helloProc]
    exact ⟨rfl, rfl⟩
  | true =>
    have hdone' := hdone rfl
    rw [mergeDone, Bool.and_eq_true, Bool.not_eq_true', Bool.not_eq_true'] at hdone'
    set st0 : MergeState :=
      ⟨enqueueOutput tO ["hello\n"], enqueueOutput tE [], true, true⟩ with hst0
    obtain ⟨l₁, l₂, heq, hcap, hend⟩ :=
      mergeRun_oSpec thr st0 (enqueueColl tO ["hello\n"]) rfl rfl
    obtain ⟨m₁, m₂, heq', hcap', hend'⟩ :=
      mergeRun_eSpec thr st0 (enqueueColl tE []) rfl rfl
    have hl2 : l₂ = [] := hend hdone'.1
    have hm2 : m₂ = [] := hend' hdone'.2
    rw [hl2, List.append_nil] at heq
    rw [hm2, List.append_nil] at heq'
    rw [← heq, truthy_enqueueColl tO ["hello\n"] (by simp)] at hcap
    rw [← heq', truthy_enqueueColl tE [] (by simp)] at hcap'
    have hteespec := teeRun_spec (mergeRun thr st0).1 true true
    simp only [cmdModel, if_false, if_true, Bool.false_eq_true, teeOutputRun]
    rw [show resolveBackend "auto" posix = .ok .thread from rfl]
    simp only [helloProc]
    rw [← hst0]
    rw [hteespec.1, hteespec.2.1, hcap, hcap']
    rfl

/-- Witness for C1: a concrete schedule on which the merge loop completes. -/
theorem cmd_hello_result_witness :
    cmdModel (.str "echo hello") helloProc false true "auto" true 0 0
      [(true, true), (true, true)] [] =
      some (.completed "hello\n" "" 0 "echo hello") := by
  have h := cmd_hello_result (.str "echo hello") true true 0 0
    [(true, true), (true, true)] [] (fun _ => by decide)
  simpa [commandText] using h

/-- C10: the command field of every result record cmd produces (detached or
completed, with or without tee) is the normalized command text computed
before launch: the string itself when the command is a string, and the
space-separated join of the pipes.quote of each element when it is a
sequence. -/
theorem cmd_command_normalized (c : CmdInput) (p : ProcSpec) (detach tee : Bool)
    (backend : String) (posix : Bool) (tO tE : Nat) (thr sel : List (Bool × Bool)) :
    (∀ r : CmdResult, cmdModel c p detach tee backend posix tO tE thr sel = some r →
      r.command = commandText c) ∧
    (∀ s, commandText (.str s) = s) ∧
    (∀ l, commandText (.tup l) = String.intercalate " " (l.map pipesQuote)) := by
  refine ⟨?_, fun s => rfl, fun l => rfl⟩
  intro r hr
  cases detach with
  | true =>
    simp only [cmdModel, if_true, Option.some_inj] at hr
    rw [← hr]
    rfl
  | false =>
    cases tee with
    | false =>
      simp only [cmdModel, if_false, Bool.false_eq_true, Option.some_inj] at hr
      rw [← hr]
      rfl
    | true =>
      simp only [cmdModel, if_false, if_true, Bool.false_eq_true] at hr
      split at hr
      · exact absurd hr (by simp)
      · rw [Option.some_inj] at hr
        rw [← hr]
        rfl

/-- Witness for C10, on a tuple command whose elements are all safe. -/
theorem cmd_command_normalized_witness :
    (CmdResult.completed "" "" 0 "echo hi").command = commandText (.tup ["echo", "hi"]) :=
  (cmd_command_normalized (.tup ["echo", "hi"]) ⟨[], [], 0⟩ false false "auto" true 0 0 [] []).1
    (CmdResult.completed "" "" 0 "echo hi") (by decide)
